import Mathlib

/-!
Verification of the paradisefmx facility-management application.

This file gives a shallow embedding of the core data model and operations of
the repository (maintenance schedules, planner occurrence projection, repair
request lifecycle, work logs, mentions/notifications, asset tags, cost
overview, invitations, soft-delete managers) and proves the specified
properties about them.

Conventions:
- calendar dates are modelled as `Int` day numbers (`datetime.date` ordering
  and `timedelta(days=n)` addition become integer ordering and addition);
- instants (`datetime.datetime`) are modelled as `Int` seconds;
- `Decimal` money amounts are modelled as `Int` cents;
- nullable fields become `Option`;
- Django querysets become Lean lists filtered exactly as the source filters.
-/

/-! ## core/models.py: MaintenanceSchedule (due-date computation) -/

/-- `MaintenanceSchedule` with the fields the due-date computation reads
(`interval_days : PositiveIntegerField`, `last_performed : DateField null`). -/
structure MaintenanceSchedule where
  interval_days : Nat
  last_performed : Option Int
deriving Repr, DecidableEq

/-- `MaintenanceSchedule.next_due_date`: `last_performed + interval_days`
days, or `date.today()` when never performed. -/
def MaintenanceSchedule.next_due_date (s : MaintenanceSchedule) (today : Int) : Int :=
  match s.last_performed with
  | none => today
  | some lp => lp + (s.interval_days : Int)

/-- `MaintenanceSchedule.is_due`: `next_due_date <= date.today()`. -/
def MaintenanceSchedule.is_due (s : MaintenanceSchedule) (today : Int) : Bool :=
  s.next_due_date today ≤ today

/-- `MaintenanceSchedule.days_until_due`: `(next_due_date - date.today()).days`. -/
def MaintenanceSchedule.days_until_due (s : MaintenanceSchedule) (today : Int) : Int :=
  s.next_due_date today - today

/-! ## requests/views.py: PlannerView occurrence projection

The month / week / list planner modes all run the same loop over a schedule:

    check_date = next_maint
    if check_date < window_start:
        days_diff = (window_start - check_date).days
        intervals_to_skip = (days_diff // interval)
        check_date = check_date + timedelta(days=intervals_to_skip * interval)
        if check_date < window_start:
            check_date += timedelta(days=interval)
    while check_date <= window_end [and count < 10 in the list view]:
        emit check_date
        check_date += timedelta(days=interval)

`skipForward` is the alignment step.  The `while` loop is embedded with an
explicit iteration bound (`projectAux`): the list view passes its own cap 10,
and the uncapped month/week loop executes at most `window_end + 1 - start`
iterations when `interval ≥ 1` (for `interval = 0` the source loop would not
terminate, so no claim is made there). -/

/-- Alignment step of the planner loops: advance `next_due` by whole multiples
of `interval` (integer-division skip) to the first occurrence `≥ windowStart`;
dates before the window start are left alone only when already inside it. -/
def skipForward (interval : Nat) (nextDue windowStart : Int) : Int :=
  if nextDue < windowStart then
    let daysDiff : Nat := (windowStart - nextDue).toNat
    let intervalsToSkip : Nat := daysDiff / interval
    let c : Int := nextDue + (intervalsToSkip * interval : Nat)
    if c < windowStart then c + (interval : Int) else c
  else nextDue

/-- The emission loop `while check_date <= windowEnd and count < cap`,
structurally recursive on the remaining iteration budget `cap`. -/
def projectAux (interval : Nat) (checkDate windowEnd : Int) : Nat → List Int
  | 0 => []
  | cap + 1 =>
    if checkDate ≤ windowEnd then
      checkDate :: projectAux interval (checkDate + (interval : Int)) windowEnd cap
    else []

/-- Iteration budget that makes `projectAux` equal to the unbounded `while`
loop of the month/week views whenever `interval ≥ 1`. -/
def uncappedFuel (checkDate windowEnd : Int) : Nat :=
  (windowEnd + 1 - checkDate).toNat

/-- `PlannerView._get_month_context` projection of one schedule: occurrences
of (`interval`, `nextDue`) inside `[firstDay, lastDay]`, no cap. -/
def projectMonth (interval : Nat) (nextDue firstDay lastDay : Int) : List Int :=
  let start := skipForward interval nextDue firstDay
  projectAux interval start lastDay (uncappedFuel start lastDay)

/-- `PlannerView._get_list_context` projection of one schedule: occurrences
of (`interval`, `nextDue`) inside `[today, today + 60]`, capped at 10. -/
def projectList (interval : Nat) (nextDue today : Int) : List Int :=
  projectAux interval (skipForward interval nextDue today) (today + 60) 10

/-! ### Projection lemmas -/

theorem projectAux_mem (interval : Nat) (windowEnd : Int) :
    ∀ (cap : Nat) (checkDate d : Int),
      d ∈ projectAux interval checkDate windowEnd cap ↔
        ∃ k : Nat, k < cap ∧ d = checkDate + (k * interval : Nat) ∧ d ≤ windowEnd := by
  intro cap
  induction cap with
  | zero => intro c d; simp [projectAux]
  | succ n ih =>
    intro c d
    by_cases hc : c ≤ windowEnd
    · simp only [projectAux, if_pos hc, List.mem_cons, ih]
      constructor
      · rintro (rfl | ⟨k, hk, rfl, hle⟩)
        · exact ⟨0, by omega, by push_cast; ring_nf, hc⟩
        · refine ⟨k + 1, by omega, by push_cast; ring, hle⟩
      · rintro ⟨k, hk, rfl, hle⟩
        cases k with
        | zero => left; push_cast; ring_nf
        | succ m =>
          right
          refine ⟨m, by omega, by push_cast; ring, hle⟩
    · simp only [projectAux, if_neg hc, List.not_mem_nil, false_iff]
      rintro ⟨k, _, rfl, hle⟩
      have : (0 : Int) ≤ (k * interval : Nat) := Int.natCast_nonneg _
      omega

theorem projectAux_chain (interval : Nat) (windowEnd : Int) :
    ∀ (cap : Nat) (checkDate : Int),
      List.Chain' (fun a b => b = a + (interval : Int))
        (projectAux interval checkDate windowEnd cap) := by
  intro cap
  induction cap with
  | zero => intro c; simp [projectAux]
  | succ n ih =>
    intro c
    by_cases hc : c ≤ windowEnd
    · simp only [projectAux, if_pos hc]
      refine List.chain'_cons'.2 ⟨?_, ih _⟩
      intro y hy
      cases n with
      | zero => simp [projectAux] at hy
      | succ m =>
        by_cases hc2 : c + (interval : Int) ≤ windowEnd
        · simp only [projectAux, if_pos hc2, List.head?_cons, Option.mem_def,
            Option.some.injEq] at hy
          omega
        · simp [projectAux, if_neg hc2] at hy
    · simp [projectAux, if_neg hc]

theorem projectAux_length_le (interval : Nat) (windowEnd : Int) :
    ∀ (cap : Nat) (checkDate : Int),
      (projectAux interval checkDate windowEnd cap).length ≤ cap := by
  intro cap
  induction cap with
  | zero => intro c; simp [projectAux]
  | succ n ih =>
    intro c
    by_cases hc : c ≤ windowEnd
    · simpa [projectAux, if_pos hc] using Nat.succ_le_succ (ih _)
    · simp [projectAux, if_neg hc]

theorem projectAux_head (interval : Nat) (windowEnd checkDate : Int) (cap : Nat)
    (hcap : 0 < cap) (hc : checkDate ≤ windowEnd) :
    (projectAux interval checkDate windowEnd cap).head? = some checkDate := by
  cases cap with
  | zero => omega
  | succ n => simp [projectAux, if_pos hc]

/-- Division bound used by the alignment step: `d / I * I` lies within one
interval below `d`. -/
theorem planner_div_bounds (d I : Nat) (hI : 1 ≤ I) :
    d / I * I ≤ d ∧ d < d / I * I + I := by
  refine ⟨Nat.div_mul_le_self d I, ?_⟩
  have h2 := Nat.mod_add_div d I
  have h3 : d % I < I := Nat.mod_lt _ (by omega)
  have h4 : d / I * I = I * (d / I) := Nat.mul_comm _ _
  omega

/-- Strict multiples of an interval stay at least one interval apart. -/
theorem planner_step_le (I q k : Nat) (h : q * I < k * I) : q * I + I ≤ k * I := by
  have hqk : q < k := by
    by_contra hle
    push_neg at hle
    have := Nat.mul_le_mul_right I hle
    omega
  have h1 : q * I + I = (q + 1) * I := by ring
  have h2 : (q + 1) * I ≤ k * I := Nat.mul_le_mul_right I (by omega)
  omega

/-- `skipForward` lands exactly on the least occurrence `nextDue + k * interval`
that is `≥ windowStart` (for positive intervals, whenever `nextDue` itself is
not already past the window start). -/
theorem skipForward_least (interval : Nat) (hI : 1 ≤ interval) (nextDue windowStart : Int) :
    (∃ k : Nat, skipForward interval nextDue windowStart = nextDue + (k * interval : Nat)) ∧
    windowStart ≤ skipForward interval nextDue windowStart ∨
      (¬ nextDue < windowStart ∧ skipForward interval nextDue windowStart = nextDue) := by
  by_cases h : nextDue < windowStart
  · left
    have hb := planner_div_bounds (windowStart - nextDue).toNat interval hI
    have hd : (((windowStart - nextDue).toNat : Int)) = windowStart - nextDue := by omega
    constructor
    · unfold skipForward
      rw [if_pos h]
      by_cases h2 : nextDue + (((windowStart - nextDue).toNat / interval * interval : Nat) : Int)
          < windowStart
      · refine ⟨(windowStart - nextDue).toNat / interval + 1, ?_⟩
        simp only [h2, if_pos]
        push_cast
        ring
      · exact ⟨(windowStart - nextDue).toNat / interval, by simp only [h2, if_neg]; push_cast; ring⟩
    · unfold skipForward
      rw [if_pos h]
      by_cases h2 : nextDue + (((windowStart - nextDue).toNat / interval * interval : Nat) : Int)
          < windowStart
      · rw [if_pos h2]
        omega
      · rw [if_neg h2]
        omega
  · right
    exact ⟨h, by unfold skipForward; rw [if_neg h]⟩

/-- Minimality: no occurrence `≥ windowStart` is earlier than `skipForward`. -/
theorem skipForward_min (interval : Nat) (nextDue windowStart : Int) (k : Nat)
    (hk : windowStart ≤ nextDue + (k * interval : Nat)) :
    skipForward interval nextDue windowStart ≤ nextDue + (k * interval : Nat) := by
  by_cases h : nextDue < windowStart
  · unfold skipForward
    rw [if_pos h]
    have hq := Nat.div_mul_le_self (windowStart - nextDue).toNat interval
    have hd : (((windowStart - nextDue).toNat : Int)) = windowStart - nextDue := by omega
    have hki : (windowStart - nextDue).toNat ≤ k * interval := by omega
    by_cases h2 : nextDue + (((windowStart - nextDue).toNat / interval * interval : Nat) : Int)
        < windowStart
    · rw [if_pos h2]
      have hqk : (windowStart - nextDue).toNat / interval * interval < k * interval := by omega
      have := planner_step_le interval ((windowStart - nextDue).toNat / interval) k hqk
      omega
    · rw [if_neg h2]
      omega
  · unfold skipForward
    rw [if_neg h]
    have : (0 : Int) ≤ (k * interval : Nat) := Int.natCast_nonneg _
    omega

/-- The alignment step always returns an occurrence of the schedule that is
at or after the window start. -/
theorem skipForward_ge_and_occ (interval : Nat) (hI : 1 ≤ interval) (nextDue windowStart : Int) :
    windowStart ≤ skipForward interval nextDue windowStart ∧
      ∃ k : Nat, skipForward interval nextDue windowStart = nextDue + (k * interval : Nat) := by
  rcases skipForward_least interval hI nextDue windowStart with ⟨⟨k, hk⟩, hge⟩ | ⟨hnot, heq⟩
  · exact ⟨hge, k, hk⟩
  · refine ⟨by omega, 0, by simp [heq]⟩

/-- With the fuel of `uncappedFuel`, `projectAux` behaves as the unbounded
while loop: it emits every occurrence from its start through the window end. -/
theorem projectAux_uncapped_mem (interval : Nat) (hI : 1 ≤ interval) (s windowEnd d : Int) :
    d ∈ projectAux interval s windowEnd (uncappedFuel s windowEnd) ↔
      (∃ k : Nat, d = s + (k * interval : Nat)) ∧ d ≤ windowEnd := by
  rw [projectAux_mem]
  constructor
  · rintro ⟨k, _, rfl, hle⟩
    exact ⟨⟨k, rfl⟩, hle⟩
  · rintro ⟨⟨k, rfl⟩, hle⟩
    refine ⟨k, ?_, rfl, hle⟩
    have hk1 : k * 1 ≤ k * interval := Nat.mul_le_mul_left k hI
    unfold uncappedFuel
    omega

/-- Exact characterization of the month-view projection: it emits precisely
the occurrences `nextDue + k * interval` lying inside `[firstDay, lastDay]`. -/
theorem projectMonth_mem (interval : Nat) (hI : 1 ≤ interval) (nextDue firstDay lastDay d : Int) :
    d ∈ projectMonth interval nextDue firstDay lastDay ↔
      (∃ k : Nat, d = nextDue + (k * interval : Nat)) ∧ firstDay ≤ d ∧ d ≤ lastDay := by
  obtain ⟨hge, k0, hk0⟩ := skipForward_ge_and_occ interval hI nextDue firstDay
  unfold projectMonth
  rw [projectAux_uncapped_mem interval hI]
  constructor
  · rintro ⟨⟨k, rfl⟩, hle⟩
    have hnn : (0 : Int) ≤ (k * interval : Nat) := Int.natCast_nonneg _
    refine ⟨⟨k0 + k, ?_⟩, by omega, hle⟩
    rw [hk0]
    push_cast
    ring
  · rintro ⟨⟨k, rfl⟩, hge2, hle⟩
    refine ⟨?_, hle⟩
    have hmin := skipForward_min interval nextDue firstDay k hge2
    rw [hk0] at hmin ⊢
    have hk0k : (k0 : Int) * interval ≤ (k : Int) * interval := by omega
    have hk0kNat : k0 * interval ≤ k * interval := by exact_mod_cast hk0k
    have hkk : k0 ≤ k := Nat.le_of_mul_le_mul_right hk0kNat (by omega)
    refine ⟨k - k0, ?_⟩
    have h2 : (k - k0) * interval + k0 * interval = k * interval := by
      rw [← Nat.add_mul, Nat.sub_add_cancel hkk]
    omega

theorem projectAux_nil (interval : Nat) (windowEnd checkDate : Int) (cap : Nat)
    (hc : ¬ checkDate ≤ windowEnd) : projectAux interval checkDate windowEnd cap = [] := by
  cases cap <;> simp [projectAux, hc]

/-- The first emitted month-view occurrence is the aligned start date. -/
theorem projectMonth_head (interval : Nat) (nextDue firstDay lastDay x : Int)
    (hx : (projectMonth interval nextDue firstDay lastDay).head? = some x) :
    x = skipForward interval nextDue firstDay := by
  unfold projectMonth at hx
  by_cases hle : skipForward interval nextDue firstDay ≤ lastDay
  · have hcap : 0 < uncappedFuel (skipForward interval nextDue firstDay) lastDay := by
      unfold uncappedFuel
      omega
    rw [projectAux_head interval lastDay _ _ hcap hle] at hx
    exact (Option.some.inj hx).symm
  · rw [projectAux_nil interval lastDay _ _ hle] at hx
    simp at hx

/-- C1 (amended): for a schedule with interval `I ≥ 1` and next-due date `N`,
the month-view projection over `[W0, W1]` emits exactly the occurrence dates
`N + k*I` lying in the window, consecutive emitted dates are exactly `I`
apart, and the first emitted date is the least occurrence `≥ W0` (reached by
the integer-division skip; for interval 30 and next_due 10 days before the
window start this lands 20 days after the window start — not at most 10, as
the original claim said).  The list view over `[today, today + 60]` emits
only occurrence dates inside its window, equally spaced, and at most 10 of
them per schedule. -/
theorem C1_occurrence_projection (interval : Nat) (hI : 1 ≤ interval)
    (nextDue W0 W1 today : Int) :
    (∀ d : Int, d ∈ projectMonth interval nextDue W0 W1 ↔
        (∃ k : Nat, d = nextDue + (k * interval : Nat)) ∧ W0 ≤ d ∧ d ≤ W1)
    ∧ List.Chain' (fun a b => b = a + (interval : Int)) (projectMonth interval nextDue W0 W1)
    ∧ (∀ x : Int, (projectMonth interval nextDue W0 W1).head? = some x →
        W0 ≤ x ∧ ∀ k : Nat, W0 ≤ nextDue + (k * interval : Nat) →
          x ≤ nextDue + (k * interval : Nat))
    ∧ (∀ d : Int, d ∈ projectList interval nextDue today →
        (∃ k : Nat, d = nextDue + (k * interval : Nat)) ∧ today ≤ d ∧ d ≤ today + 60)
    ∧ List.Chain' (fun a b => b = a + (interval : Int)) (projectList interval nextDue today)
    ∧ (projectList interval nextDue today).length ≤ 10 := by
  refine ⟨fun d => projectMonth_mem interval hI nextDue W0 W1 d, ?_, ?_, ?_, ?_, ?_⟩
  · exact projectAux_chain interval W1 _ _
  · intro x hx
    have hxs := projectMonth_head interval nextDue W0 W1 x hx
    obtain ⟨hge, k0, hk0⟩ := skipForward_ge_and_occ interval hI nextDue W0
    subst hxs
    exact ⟨hge, fun k hk => skipForward_min interval nextDue W0 k hk⟩
  · intro d hd
    unfold projectList at hd
    rw [projectAux_mem] at hd
    obtain ⟨k, hk10, rfl, hle⟩ := hd
    obtain ⟨hge, k0, hk0⟩ := skipForward_ge_and_occ interval hI nextDue today
    have hnn : (0 : Int) ≤ ((k * interval : Nat) : Int) := Int.natCast_nonneg _
    refine ⟨⟨k0 + k, ?_⟩, by omega, hle⟩
    rw [hk0]
    push_cast
    ring
  · exact projectAux_chain interval (today + 60) _ _
  · exact projectAux_length_le interval (today + 60) _ _

/-- C1 counterexample: with interval 30, window start 100 and next_due 90
(10 days before the window start), the first projected date is 120 — 20 days
after the window start, refuting the claimed bound of at most 10 days. -/
theorem C1_counterexample :
    (projectMonth 30 90 100 200).head? = some 120 ∧ ¬ ((120 : Int) ≤ 100 + 10) := by
  refine ⟨?_, by decide⟩
  decide

/-- Witness instantiating `C1_occurrence_projection` at interval 3. -/
theorem C1_occurrence_projection_witness :
    (12 : Int) ∈ projectMonth 3 0 10 20 ∧ (projectList 3 0 5).length ≤ 10 :=
  ⟨((C1_occurrence_projection 3 (by decide) 0 10 20 5).1 12).mpr
      ⟨⟨4, by decide⟩, by decide, by decide⟩,
   (C1_occurrence_projection 3 (by decide) 0 10 20 5).2.2.2.2.2⟩

/-- C2: a schedule's next_due_date is last_performed + interval_days when
last_performed is present and today when absent, and is_due holds exactly when
next_due_date ≤ today, equivalently days_until_due ≤ 0. -/
theorem C2_next_due_and_is_due (s : MaintenanceSchedule) (today : Int) :
    (∀ lp : Int, s.last_performed = some lp →
        s.next_due_date today = lp + (s.interval_days : Int))
    ∧ (s.last_performed = none → s.next_due_date today = today)
    ∧ (s.is_due today = true ↔ s.next_due_date today ≤ today)
    ∧ (s.is_due today = true ↔ s.days_until_due today ≤ 0) := by
  refine ⟨?_, ?_, ?_, ?_⟩
  · intro lp hlp
    simp [MaintenanceSchedule.next_due_date, hlp]
  · intro h
    simp [MaintenanceSchedule.next_due_date, h]
  · simp [MaintenanceSchedule.is_due]
  · simp only [MaintenanceSchedule.is_due, MaintenanceSchedule.days_until_due,
      decide_eq_true_eq]
    omega

/-- Witness instantiating `C2_next_due_and_is_due` on concrete schedules. -/
theorem C2_next_due_and_is_due_witness :
    MaintenanceSchedule.next_due_date ⟨30, some 10⟩ 50 = 10 + (30 : Int) ∧
    MaintenanceSchedule.is_due ⟨30, some 10⟩ 50 = true ∧
    MaintenanceSchedule.next_due_date ⟨7, none⟩ 50 = 50 :=
  ⟨(C2_next_due_and_is_due ⟨30, some 10⟩ 50).1 10 rfl,
   ((C2_next_due_and_is_due ⟨30, some 10⟩ 50).2.2.1).mpr (by decide),
   (C2_next_due_and_is_due ⟨7, none⟩ 50).2.1 rfl⟩

/-! ## requests/models.py and requests/views.py: RepairRequest lifecycle -/

/-- `RepairRequest.Status` choices. -/
inductive RequestStatus
  | new
  | triaged
  | in_progress
  | waiting
  | completed
  | closed
deriving Repr, DecidableEq

/-- Dutch display labels of `RepairRequest.Status.choices`
(`get_status_display`). -/
def RequestStatus.label : RequestStatus → String
  | .new => "Nieuw"
  | .triaged => "Getriageerd"
  | .in_progress => "Bezig"
  | .waiting => "Wacht"
  | .completed => "Gereed"
  | .closed => "Gesloten"

/-- A `django.contrib.auth` user, with the fields the requests app reads. -/
structure AppUser where
  id : Nat
  username : String
  full_name : String
  email : String
  is_staff : Bool
  is_superuser : Bool
  groups : List String
deriving Repr, DecidableEq

/-- `user.get_full_name() or user.username` (empty full name is falsy). -/
def AppUser.display (u : AppUser) : String :=
  if u.full_name = "" then u.username else u.full_name

/-- The `RepairRequest` fields involved in the staff update flow and the
`closed_at` invariant. -/
structure RequestState where
  status : RequestStatus
  closed_at : Option Int
  assigned_to : Option AppUser
  triaged_by : Option AppUser
deriving Repr, DecidableEq

/-- `RepairRequest.save`: stamps `closed_at = timezone.now()` when saved with
status closed and `closed_at` still null; otherwise leaves it unchanged. -/
def requestSave (r : RequestState) (now : Int) : RequestState :=
  if r.status = RequestStatus.closed ∧ r.closed_at = none then
    { r with closed_at := some now }
  else r

/-- One observed mutate-then-save step: callers set `status` and `save` runs. -/
def saveWithStatus (r : RequestState) (st : RequestStatus) (now : Int) : RequestState :=
  requestSave { r with status := st } now

/-- A sequence of status saves at given times. -/
def runSaves (r : RequestState) (evs : List (RequestStatus × Int)) : RequestState :=
  evs.foldl (fun acc e => saveWithStatus acc e.1 e.2) r

theorem requestSave_preserves_closed_at (r : RequestState) (now t : Int)
    (h : r.closed_at = some t) : (requestSave r now).closed_at = some t := by
  unfold requestSave
  by_cases hc : r.status = RequestStatus.closed ∧ r.closed_at = none
  · rw [h] at hc
    simp at hc
  · rw [if_neg hc]
    exact h

theorem runSaves_preserves_closed_at (evs : List (RequestStatus × Int)) :
    ∀ (r : RequestState) (t : Int), r.closed_at = some t →
      (runSaves r evs).closed_at = some t := by
  induction evs with
  | nil => intro r t h; exact h
  | cons e rest ih =>
    intro r t h
    have hstep : (saveWithStatus r e.1 e.2).closed_at = some t :=
      requestSave_preserves_closed_at _ _ _ h
    exact ih _ t hstep

theorem runSaves_none_of_no_closed (evs : List (RequestStatus × Int)) :
    ∀ r : RequestState, r.closed_at = none →
      (∀ e ∈ evs, e.1 ≠ RequestStatus.closed) →
      (runSaves r evs).closed_at = none := by
  induction evs with
  | nil => intro r h _; exact h
  | cons e rest ih =>
    intro r h hn
    have hne : e.1 ≠ RequestStatus.closed := hn e (List.mem_cons_self e rest)
    have hstep : (saveWithStatus r e.1 e.2).closed_at = none := by
      unfold saveWithStatus requestSave
      rw [if_neg]
      · exact h
      · intro hc
        exact hne hc.1
    exact ih _ hstep (fun x hx => hn x (List.mem_cons_of_mem e hx))

theorem runSaves_append (r : RequestState) (l1 l2 : List (RequestStatus × Int)) :
    runSaves r (l1 ++ l2) = runSaves (runSaves r l1) l2 :=
  List.foldl_append _ _ _ _

/-- C3: starting from a request with null `closed_at`, a sequence of saves
whose statuses before the first close are not closed keeps `closed_at` null;
the first save with status closed stamps `closed_at` with that save's time;
and every later save — whatever its status, including moves away from closed
and back — leaves the stamped value unchanged. -/
theorem C3_closed_at_set_once (r : RequestState) (hr : r.closed_at = none)
    (pre post : List (RequestStatus × Int)) (t : Int)
    (hpre : ∀ e ∈ pre, e.1 ≠ RequestStatus.closed) :
    (runSaves r pre).closed_at = none
    ∧ (runSaves r (pre ++ (RequestStatus.closed, t) :: post)).closed_at = some t
    ∧ (∀ (r' : RequestState) (t' : Int) (evs : List (RequestStatus × Int)),
        r'.closed_at = some t' → (runSaves r' evs).closed_at = some t') := by
  have h1 : (runSaves r pre).closed_at = none := runSaves_none_of_no_closed pre r hr hpre
  refine ⟨h1, ?_, fun r' t' evs h => runSaves_preserves_closed_at evs r' t' h⟩
  rw [runSaves_append]
  have hstep : (saveWithStatus (runSaves r pre) RequestStatus.closed t).closed_at = some t := by
    unfold saveWithStatus requestSave
    rw [if_pos ⟨rfl, h1⟩]
  have : runSaves (runSaves r pre) ((RequestStatus.closed, t) :: post) =
      runSaves (saveWithStatus (runSaves r pre) RequestStatus.closed t) post := rfl
  rw [this]
  exact runSaves_preserves_closed_at post _ t hstep

/-- Witness instantiating `C3_closed_at_set_once`: close at time 5, reopen,
close again at time 9 — `closed_at` stays 5. -/
theorem C3_closed_at_set_once_witness :
    (runSaves ⟨RequestStatus.new, none, none, none⟩
        [(RequestStatus.triaged, 1), (RequestStatus.closed, 5),
         (RequestStatus.in_progress, 7), (RequestStatus.closed, 9)]).closed_at = some 5 := by
  have h := C3_closed_at_set_once ⟨RequestStatus.new, none, none, none⟩ rfl
    [(RequestStatus.triaged, 1)]
    [(RequestStatus.in_progress, 7), (RequestStatus.closed, 9)] 5 (by decide)
  exact h.2.1

/-- `WorkLog.EntryType` choices. -/
inductive EntryType
  | created
  | note
  | status_change
  | assignment
  | time_spent
deriving Repr, DecidableEq

/-- A `WorkLog` row as created by the update flow. -/
structure WorkLogEntry where
  author : Option AppUser
  entry_type : EntryType
  note : String
deriving Repr, DecidableEq

/-- The `TriageForm` fields whose changes `update_request` tracks. -/
structure TriageInput where
  status : RequestStatus
  assigned_to : Option AppUser
deriving Repr, DecidableEq

/-- The Dutch change line "Status gewijzigd van OLD naar NEW". -/
def statusChangeNote (old nw : RequestStatus) : String :=
  "Status gewijzigd van " ++ old.label ++ " naar " ++ nw.label

/-- The Dutch change line "Toegewezen aan USER" / "Toewijzing verwijderd". -/
def assignmentNote (assigned : Option AppUser) : String :=
  match assigned with
  | some u => "Toegewezen aan " ++ u.display
  | none => "Toewijzing verwijderd"

/-- Python substring test `needle in hay` (update_request uses
`'Status' in change` to pick the entry type). -/
def strContains (hay needle : String) : Bool :=
  decide (needle.data <:+: hay.data)

/-- The `changes` list accumulated by `update_request`: one line per tracked
change, status first. -/
def update_request_changes (old : RequestState) (inp : TriageInput) : List String :=
  (if old.status ≠ inp.status then [statusChangeNote old.status inp.status] else []) ++
  (if old.assigned_to ≠ inp.assigned_to then [assignmentNote inp.assigned_to] else [])

/-- `update_request` (staff POST): applies the form's status/assignment,
stamps `triaged_by` on a first transition into triaged, saves the request
(stamping `closed_at` on a first close), and creates one `WorkLog` row per
tracked change, authored by the acting user. -/
def update_request (old : RequestState) (inp : TriageInput) (actor : AppUser) (now : Int) :
    RequestState × List WorkLogEntry :=
  let r1 : RequestState := { old with status := inp.status, assigned_to := inp.assigned_to }
  let r2 : RequestState :=
    if old.status ≠ inp.status ∧ inp.status = RequestStatus.triaged ∧ r1.triaged_by = none
    then { r1 with triaged_by := some actor } else r1
  let r3 := requestSave r2 now
  let changes := update_request_changes old inp
  (r3, changes.map (fun c =>
    { author := some actor
      entry_type := if strContains c "Status" then EntryType.status_change
                    else EntryType.assignment
      note := c }))

/-- C4: a staff update appends exactly one work-log entry per change — the
status line when the status changed, the assignment line when the assignee
changed, both (in that order) when both changed, and none when neither
changed — every entry attributed to the acting user. -/
theorem C4_worklog_per_change (old : RequestState) (inp : TriageInput)
    (actor : AppUser) (now : Int) :
    (∀ e ∈ (update_request old inp actor now).2, e.author = some actor)
    ∧ (update_request old inp actor now).2.length =
        (if old.status = inp.status then 0 else 1) +
        (if old.assigned_to = inp.assigned_to then 0 else 1)
    ∧ (old.status = inp.status → old.assigned_to = inp.assigned_to →
        (update_request old inp actor now).2 = [])
    ∧ (old.status ≠ inp.status → old.assigned_to = inp.assigned_to →
        ((update_request old inp actor now).2.map (fun e => e.note)) =
          [statusChangeNote old.status inp.status])
    ∧ (old.status = inp.status → old.assigned_to ≠ inp.assigned_to →
        ((update_request old inp actor now).2.map (fun e => e.note)) =
          [assignmentNote inp.assigned_to])
    ∧ (old.status ≠ inp.status → old.assigned_to ≠ inp.assigned_to →
        ((update_request old inp actor now).2.map (fun e => e.note)) =
          [statusChangeNote old.status inp.status, assignmentNote inp.assigned_to]) := by
  refine ⟨?_, ?_, ?_, ?_, ?_, ?_⟩
  · intro e he
    simp only [update_request, List.mem_map] at he
    obtain ⟨c, _, rfl⟩ := he
    rfl
  · by_cases h1 : old.status = inp.status <;> by_cases h2 : old.assigned_to = inp.assigned_to <;>
      simp [update_request, update_request_changes, h1, h2]
  · intro h1 h2
    simp [update_request, update_request_changes, h1, h2]
  · intro h1 h2
    simp [update_request, update_request_changes, h1, h2]
  · intro h1 h2
    simp [update_request, update_request_changes, h1, h2]
  · intro h1 h2
    simp [update_request, update_request_changes, h1, h2]

/-- Witness instantiating `C4_worklog_per_change`: triaging and assigning a
new request yields exactly the two change entries. -/
theorem C4_worklog_per_change_witness :
    ((update_request ⟨RequestStatus.new, none, none, none⟩
        ⟨RequestStatus.triaged, some ⟨1, "piet", "", "piet@example.org", true, false, []⟩⟩
        ⟨1, "piet", "", "piet@example.org", true, false, []⟩ 0).2.map (fun e => e.note)) =
      [statusChangeNote RequestStatus.new RequestStatus.triaged,
       assignmentNote (some ⟨1, "piet", "", "piet@example.org", true, false, []⟩)] := by
  have h := C4_worklog_per_change ⟨RequestStatus.new, none, none, none⟩
    ⟨RequestStatus.triaged, some ⟨1, "piet", "", "piet@example.org", true, false, []⟩⟩
    ⟨1, "piet", "", "piet@example.org", true, false, []⟩ 0
  exact h.2.2.2.2.2 (by decide) (by decide)

/-! ## accounts/models.py and accounts/views.py: invitations -/

/-- `Invitation.Status` choices. -/
inductive InvitationStatus
  | pending
  | accepted
  | expired
  | cancelled
deriving Repr, DecidableEq

/-- `timezone.timedelta(days=7)` in seconds (the instant scale of the model). -/
def sevenDays : Int := 7 * 86400

/-- An `Invitation` row, with the fields the validity check reads. -/
structure Invitation where
  status : InvitationStatus
  created_at : Int
  accepted_at : Option Int
deriving Repr, DecidableEq

/-- `Invitation.is_valid`: valid only while pending and within 7 days of
creation; a check past the window marks the row expired as a side effect of
the read (lazy expiry).  Returns the check result and the updated row. -/
def Invitation.is_valid (inv : Invitation) (now : Int) : Bool × Invitation :=
  if inv.status ≠ InvitationStatus.pending then (false, inv)
  else if inv.created_at + sevenDays < now then
    (false, { inv with status := InvitationStatus.expired })
  else (true, inv)

/-- `Invitation.expires_at`. -/
def Invitation.expires_at (inv : Invitation) : Int :=
  inv.created_at + sevenDays

/-- `AcceptInvitationView.dispatch` guarded acceptance: rejected (redirect to
login) when `is_valid` is false, otherwise the invitation is marked accepted
at the acceptance time.  Returns whether acceptance happened and the row. -/
def dispatchAccept (inv : Invitation) (now : Int) : Bool × Invitation :=
  let checked := inv.is_valid now
  if checked.1 then
    (true, { checked.2 with status := InvitationStatus.accepted, accepted_at := some now })
  else (false, checked.2)

/-- C5: an invitation is valid exactly when it is pending and the time of the
check is at most `created_at + 7 days` (so the first invalid instants are
exactly those past that boundary); a validity check on a pending invitation
past the boundary marks it expired as a side effect, and any acceptance
attempt from then on fails and leaves the status expired; in particular an
acceptance attempt past the boundary fails with final status expired. -/
theorem C5_invitation_expiry (inv : Invitation) (now later : Int) :
    ((inv.is_valid now).1 = true ↔
      inv.status = InvitationStatus.pending ∧ now ≤ inv.created_at + sevenDays)
    ∧ (inv.status = InvitationStatus.pending → inv.created_at + sevenDays < now →
        (inv.is_valid now).2.status = InvitationStatus.expired
        ∧ (dispatchAccept (inv.is_valid now).2 later).1 = false
        ∧ (dispatchAccept (inv.is_valid now).2 later).2.status = InvitationStatus.expired)
    ∧ (inv.status = InvitationStatus.pending → inv.created_at + sevenDays < now →
        (dispatchAccept inv now).1 = false
        ∧ (dispatchAccept inv now).2.status = InvitationStatus.expired) := by
  unfold dispatchAccept Invitation.is_valid
  by_cases hp : inv.status = InvitationStatus.pending
  · by_cases hexp : inv.created_at + sevenDays < now
    all_goals simp [hp, hexp]
    all_goals omega
  · simp [hp]

/-- Witness instantiating `C5_invitation_expiry`: a pending invitation created
at time 0 checked one second past the 7-day boundary. -/
theorem C5_invitation_expiry_witness :
    (dispatchAccept ⟨InvitationStatus.pending, 0, none⟩ (7 * 86400 + 1)).1 = false ∧
    (dispatchAccept ⟨InvitationStatus.pending, 0, none⟩ (7 * 86400 + 1)).2.status =
      InvitationStatus.expired :=
  (C5_invitation_expiry ⟨InvitationStatus.pending, 0, none⟩ (7 * 86400 + 1) 0).2.2 rfl
    (by decide)

/-! ## requests/models.py managers and requests/views.py querysets -/

/-- A calendar date, ordered like `datetime.date`. -/
structure CalDate where
  year : Int
  month : Nat
  day : Nat
deriving Repr, DecidableEq

/-- Lexicographic date comparison (`datetime.date` ordering). -/
def CalDate.le (a b : CalDate) : Bool :=
  a.year < b.year ∨ (a.year = b.year ∧
    (a.month < b.month ∨ (a.month = b.month ∧ a.day ≤ b.day)))

/-- `calendar.isleap`. -/
def isLeapYear (y : Int) : Bool :=
  y % 4 = 0 ∧ (y % 100 ≠ 0 ∨ y % 400 = 0)

/-- `calendar.monthrange(year, month)[1]`: the day count of the month. -/
def monthLength (y : Int) (m : Nat) : Nat :=
  if m = 2 then (if isLeapYear y then 29 else 28)
  else if m = 4 ∨ m = 6 ∨ m = 9 ∨ m = 11 then 30
  else 31

/-- A date with in-range month and day fields. -/
def CalDate.valid (d : CalDate) : Prop :=
  1 ≤ d.month ∧ d.month ≤ 12 ∧ 1 ≤ d.day ∧ d.day ≤ monthLength d.year d.month

/-- A `RepairRequest` row with the fields the list, dashboard, planner and
cost views read, including the soft-delete flag. -/
structure RequestRow where
  id : Nat
  requester_user : Option Nat
  requester_email : String
  status : RequestStatus
  assigned_to : Option Nat
  due_date : Option Int
  created_at : CalDate
  estimated_cost : Option Int
  actual_cost : Option Int
  is_deleted : Bool
deriving Repr, DecidableEq

/-- `ActiveRequestManager.get_queryset` — the default `RepairRequest.objects`
manager: every query starts from the rows with `is_deleted=False`. -/
def activeObjects (db : List RequestRow) : List RequestRow :=
  db.filter (fun r => !r.is_deleted)

/-- `RepairRequest.all_objects` — the plain manager, including deleted rows. -/
def allObjects (db : List RequestRow) : List RequestRow :=
  db

/-- The staff test used across the requests views:
`user.is_staff or user.is_superuser or user.groups.filter(name='Facilitair')`. -/
def isFacilitiesStaff (u : AppUser) : Bool :=
  u.is_staff || u.is_superuser || u.groups.contains "Facilitair"

/-- `RequestListView.get_queryset` before the optional GET filters: all rows
of the default manager for staff, own rows (by linked account or by matching
email) for everyone else.  `RequestDetailView.get_queryset` applies the same
filter. -/
def requestListQueryset (db : List RequestRow) (u : AppUser) : List RequestRow :=
  let qs := activeObjects db
  if !(u.is_staff || u.is_superuser) && !(u.groups.contains "Facilitair") then
    qs.filter (fun r => r.requester_user == some u.id || r.requester_email == u.email)
  else qs

/-- C6 (amended): the request list (before optional filters) contains, for a
non-staff user, exactly the non-deleted requests whose requester account or
requester email matches the user; for staff it contains exactly the
non-deleted requests.  (The original claim did not restrict to non-deleted
rows: the default manager also hides soft-deleted requests, see the
counterexample.) -/
theorem C6_list_access (db : List RequestRow) (u : AppUser) (r : RequestRow) :
    r ∈ requestListQueryset db u ↔
      r ∈ db ∧ r.is_deleted = false ∧
        (isFacilitiesStaff u = true ∨
          (r.requester_user = some u.id ∨ r.requester_email = u.email)) := by
  unfold requestListQueryset activeObjects isFacilitiesStaff
  by_cases hs : (u.is_staff || u.is_superuser) = true
  · simp only [hs, Bool.not_true, Bool.false_and, Bool.false_eq_true, if_false,
      List.mem_filter, Bool.not_eq_true']
    constructor
    · rintro ⟨hm, hd⟩
      exact ⟨hm, hd, Or.inl (by simp [hs])⟩
    · rintro ⟨hm, hd, _⟩
      exact ⟨hm, hd⟩
  · by_cases hg : u.groups.contains "Facilitair" = true
    · simp only [hg, Bool.not_true, Bool.and_false, Bool.false_eq_true, if_false,
        List.mem_filter, Bool.not_eq_true']
      constructor
      · rintro ⟨hm, hd⟩
        exact ⟨hm, hd, Or.inl (by simp [hg])⟩
      · rintro ⟨hm, hd, _⟩
        exact ⟨hm, hd⟩
    · have hs' : (u.is_staff || u.is_superuser) = false := by
        simpa using hs
      have hg' : u.groups.contains "Facilitair" = false := by
        simpa using hg
      simp only [hs', hg', Bool.not_false, Bool.and_self, if_true, List.mem_filter,
        Bool.not_eq_true']
      constructor
      · rintro ⟨⟨hm, hd⟩, hmatch⟩
        refine ⟨hm, hd, Or.inr ?_⟩
        rcases Bool.or_eq_true_iff.mp hmatch with h | h
        · exact Or.inl (by simpa using h)
        · exact Or.inr (by simpa using h)
      · rintro ⟨hm, hd, hcase⟩
        refine ⟨⟨hm, hd⟩, ?_⟩
        rcases hcase with hstaff | hown
        · simp [hs', hg'] at hstaff
        · rcases hown with h | h <;> simp [h]

/-- C6 counterexample: a soft-deleted request whose requester is the user is
in the database but absent from the list queryset even for staff, so the
result does not contain "exactly the requests" matching the claim — only the
non-deleted ones. -/
theorem C6_counterexample :
    isFacilitiesStaff ⟨2, "staffer", "", "s@example.org", true, false, []⟩ = true
    ∧ (⟨1, some 7, "jan@example.org", RequestStatus.new, none, none,
          ⟨2024, 1, 15⟩, none, none, true⟩ : RequestRow) ∈
        ([⟨1, some 7, "jan@example.org", RequestStatus.new, none, none,
          ⟨2024, 1, 15⟩, none, none, true⟩] : List RequestRow)
    ∧ (⟨1, some 7, "jan@example.org", RequestStatus.new, none, none,
          ⟨2024, 1, 15⟩, none, none, true⟩ : RequestRow) ∉
        requestListQueryset
          [⟨1, some 7, "jan@example.org", RequestStatus.new, none, none,
            ⟨2024, 1, 15⟩, none, none, true⟩]
          ⟨2, "staffer", "", "s@example.org", true, false, []⟩ := by
  refine ⟨rfl, by decide, ?_⟩
  decide

/-! ## requests/views.py: CostOverviewView -/

/-- Django `Sum` aggregate over a column: NULL when there is no non-null
value, otherwise the sum of the non-null values. -/
def djangoSum (l : List (Option Int)) : Option Int :=
  let vs := l.filterMap id
  if vs.isEmpty then none else some vs.sum

/-- `agg['...'] or Decimal('0')`: both `None` and the (equal-valued) zero sum
collapse to zero. -/
def orZero (o : Option Int) : Int :=
  o.getD 0

/-- One entry of the view's `months_data`. -/
structure MonthBucket where
  month : Nat
  estimated : Int
  actual : Int
  difference : Int
  count : Nat
deriving Repr, DecidableEq

/-- The requests the view aggregates for a month: `created_at__date` between
the first and the last day of the month, through the default manager. -/
def createdInMonth (db : List RequestRow) (y : Int) (m : Nat) : List RequestRow :=
  (activeObjects db).filter (fun r =>
    CalDate.le ⟨y, m, 1⟩ r.created_at && CalDate.le r.created_at ⟨y, m, monthLength y m⟩)

/-- One month's bucket: estimated/actual sums (zero when absent), their
signed difference, and the request count (the view recounts with the same
date filter). -/
def monthBucket (db : List RequestRow) (y : Int) (m : Nat) : MonthBucket :=
  let reqs := createdInMonth db y m
  let estimated := orZero (djangoSum (reqs.map (fun r => r.estimated_cost)))
  let actual := orZero (djangoSum (reqs.map (fun r => r.actual_cost)))
  { month := m
    estimated := estimated
    actual := actual
    difference := actual - estimated
    count := reqs.length }

/-- The context produced by `CostOverviewView.get_context_data`. -/
structure CostOverviewResult where
  months_data : List MonthBucket
  total_estimated : Int
  total_actual : Int
  total_difference : Int
deriving Repr, DecidableEq

/-- `CostOverviewView.get_context_data`: twelve buckets (January..December of
the requested year) and totals accumulated across them. -/
def costOverview (db : List RequestRow) (y : Int) : CostOverviewResult :=
  let buckets := (List.range 12).map (fun i => monthBucket db y (i + 1))
  let totalEstimated := (buckets.map (fun b => b.estimated)).sum
  let totalActual := (buckets.map (fun b => b.actual)).sum
  { months_data := buckets
    total_estimated := totalEstimated
    total_actual := totalActual
    total_difference := totalActual - totalEstimated }

/-! ### Cost-overview lemmas -/

theorem orZero_djangoSum (l : List (Option Int)) :
    orZero (djangoSum l) = (l.map orZero).sum := by
  have h : (l.filterMap id).sum = (l.map orZero).sum := by
    induction l with
    | nil => rfl
    | cons a rest ih =>
      cases a with
      | none => simpa [List.filterMap_cons, orZero] using ih
      | some v => simp [List.filterMap_cons, orZero, ih]
  unfold djangoSum orZero
  by_cases he : (l.filterMap id).isEmpty = true
  · have hnil : l.filterMap id = [] := by
      simpa [List.isEmpty_iff] using he
    rw [hnil] at h
    simp only [he, if_true, Option.getD_none]
    simpa using h
  · simp only [he, if_false, Option.getD_some]
    exact h

/-- The month date-range filter of the view coincides with "created in year
`y`, month `m`" on valid dates. -/
theorem caldate_range_iff (y : Int) (m : Nat) (d : CalDate) (hd : d.valid) :
    (CalDate.le ⟨y, m, 1⟩ d && CalDate.le d ⟨y, m, monthLength y m⟩) = true ↔
      d.year = y ∧ d.month = m := by
  obtain ⟨h1, h2, h3, h4⟩ := hd
  unfold CalDate.le
  simp only [Bool.and_eq_true, decide_eq_true_eq]
  constructor
  · rintro ⟨ha, hb⟩
    constructor
    · omega
    · omega
  · rintro ⟨hy, hm⟩
    rw [hy, hm] at h4
    constructor
    · omega
    · omega

theorem createdInMonth_eq (db : List RequestRow) (y : Int) (m : Nat)
    (hvalid : ∀ r ∈ db, r.created_at.valid) :
    createdInMonth db y m = (activeObjects db).filter
      (fun r => r.created_at.year == y && r.created_at.month == m) := by
  unfold createdInMonth
  apply List.filter_congr
  intro r hr
  have hv : r.created_at.valid := hvalid r (List.mem_of_mem_filter hr)
  rw [Bool.eq_iff_iff]
  rw [caldate_range_iff y m r.created_at hv]
  simp [Bool.and_eq_true, beq_iff_eq]

theorem monthBucket_spec (db : List RequestRow) (y : Int) (m : Nat)
    (hvalid : ∀ r ∈ db, r.created_at.valid) :
    (monthBucket db y m).estimated = (((activeObjects db).filter (fun r =>
        r.created_at.year == y && r.created_at.month == m)).map
        (fun r => orZero r.estimated_cost)).sum
    ∧ (monthBucket db y m).actual = (((activeObjects db).filter (fun r =>
        r.created_at.year == y && r.created_at.month == m)).map
        (fun r => orZero r.actual_cost)).sum
    ∧ (monthBucket db y m).difference =
        (monthBucket db y m).actual - (monthBucket db y m).estimated
    ∧ (monthBucket db y m).count = ((activeObjects db).filter (fun r =>
        r.created_at.year == y && r.created_at.month == m)).length := by
  have hc := createdInMonth_eq db y m hvalid
  refine ⟨?_, ?_, rfl, ?_⟩
  · show orZero (djangoSum ((createdInMonth db y m).map (fun r => r.estimated_cost))) = _
    rw [hc, orZero_djangoSum, List.map_map]
    rfl
  · show orZero (djangoSum ((createdInMonth db y m).map (fun r => r.actual_cost))) = _
    rw [hc, orZero_djangoSum, List.map_map]
    rfl
  · show (createdInMonth db y m).length = _
    rw [hc]

theorem costOverview_buckets (db : List RequestRow) (y : Int) :
    (costOverview db y).months_data = (List.range 12).map (fun i => monthBucket db y (i + 1)) :=
  rfl

/-- C9 (amended): for any year the cost overview has exactly twelve buckets,
months 1..12 in order; each bucket sums estimated and actual cost (absent
values counting as zero) over the non-deleted requests whose creation date
falls in that month, carries that month's request count and the signed
difference actual − estimated; the totals are the sums over the twelve
buckets; and a year with no (non-deleted) requests yields twelve zero-valued
buckets and zero totals.  (The original claim did not restrict the sums to
non-deleted requests: the view reads through the default manager, see the
counterexample.) -/
theorem C9_cost_overview (db : List RequestRow) (y : Int)
    (hvalid : ∀ r ∈ db, r.created_at.valid) :
    (costOverview db y).months_data.length = 12
    ∧ ((costOverview db y).months_data.map (fun b => b.month)) =
        (List.range 12).map (fun i => i + 1)
    ∧ (∀ b ∈ (costOverview db y).months_data,
        b.estimated = (((activeObjects db).filter (fun r =>
            r.created_at.year == y && r.created_at.month == b.month)).map
            (fun r => orZero r.estimated_cost)).sum
        ∧ b.actual = (((activeObjects db).filter (fun r =>
            r.created_at.year == y && r.created_at.month == b.month)).map
            (fun r => orZero r.actual_cost)).sum
        ∧ b.difference = b.actual - b.estimated
        ∧ b.count = ((activeObjects db).filter (fun r =>
            r.created_at.year == y && r.created_at.month == b.month)).length)
    ∧ (costOverview db y).total_estimated =
        ((costOverview db y).months_data.map (fun b => b.estimated)).sum
    ∧ (costOverview db y).total_actual =
        ((costOverview db y).months_data.map (fun b => b.actual)).sum
    ∧ (costOverview db y).total_difference =
        (costOverview db y).total_actual - (costOverview db y).total_estimated
    ∧ ((∀ r ∈ activeObjects db, r.created_at.year ≠ y) →
        (∀ b ∈ (costOverview db y).months_data,
          b.estimated = 0 ∧ b.actual = 0 ∧ b.difference = 0 ∧ b.count = 0)
        ∧ (costOverview db y).total_estimated = 0
        ∧ (costOverview db y).total_actual = 0
        ∧ (costOverview db y).total_difference = 0) := by
  have hbucket : ∀ b ∈ (costOverview db y).months_data,
      b.estimated = (((activeObjects db).filter (fun r =>
          r.created_at.year == y && r.created_at.month == b.month)).map
          (fun r => orZero r.estimated_cost)).sum
      ∧ b.actual = (((activeObjects db).filter (fun r =>
          r.created_at.year == y && r.created_at.month == b.month)).map
          (fun r => orZero r.actual_cost)).sum
      ∧ b.difference = b.actual - b.estimated
      ∧ b.count = ((activeObjects db).filter (fun r =>
          r.created_at.year == y && r.created_at.month == b.month)).length := by
    intro b hb
    rw [costOverview_buckets] at hb
    simp only [List.mem_map, List.mem_range] at hb
    obtain ⟨i, _, rfl⟩ := hb
    exact monthBucket_spec db y (i + 1) hvalid
  refine ⟨by simp [costOverview], ?_, hbucket, rfl, rfl, rfl, ?_⟩
  · rw [costOverview_buckets, List.map_map]
    rfl
  · intro hempty
    have hfilters : ∀ m : Nat, (activeObjects db).filter (fun r =>
        r.created_at.year == y && r.created_at.month == m) = [] := by
      intro m
      apply List.filter_eq_nil_iff.mpr
      intro r hr
      simp only [Bool.and_eq_true, beq_iff_eq, not_and]
      intro hy
      exact absurd hy (hempty r hr)
    have hzero : ∀ b ∈ (costOverview db y).months_data,
        b.estimated = 0 ∧ b.actual = 0 ∧ b.difference = 0 ∧ b.count = 0 := by
      intro b hb
      obtain ⟨he, ha, hd, hc⟩ := hbucket b hb
      rw [hfilters b.month] at he ha hc
      simp at he ha hc
      exact ⟨he, ha, by rw [hd, he, ha]; decide, hc⟩
    have h2 : (costOverview db y).total_estimated = 0 := by
      have hte : (costOverview db y).total_estimated =
          ((costOverview db y).months_data.map (fun b => b.estimated)).sum := rfl
      rw [hte]
      apply List.sum_eq_zero
      intro x hx
      rw [List.mem_map] at hx
      obtain ⟨b, hb, rfl⟩ := hx
      exact (hzero b hb).1
    have h1 : (costOverview db y).total_actual = 0 := by
      have hta : (costOverview db y).total_actual =
          ((costOverview db y).months_data.map (fun b => b.actual)).sum := rfl
      rw [hta]
      apply List.sum_eq_zero
      intro x hx
      rw [List.mem_map] at hx
      obtain ⟨b, hb, rfl⟩ := hx
      exact (hzero b hb).2.1
    refine ⟨hzero, h2, h1, ?_⟩
    show (costOverview db y).total_actual - (costOverview db y).total_estimated = 0
    rw [h1, h2]
    decide

/-- Witness instantiating `C9_cost_overview` on an empty database. -/
theorem C9_cost_overview_witness :
    (costOverview [] 2024).months_data.length = 12 ∧
    (costOverview [] 2024).total_estimated = 0 ∧
    (costOverview [] 2024).total_difference = 0 := by
  have h := C9_cost_overview [] 2024 (by simp)
  have hz := h.2.2.2.2.2.2 (by simp [activeObjects])
  exact ⟨h.1, hz.2.1, hz.2.2.2⟩

/-- C9 counterexample: a soft-deleted request created in January 2024 with an
estimated cost of 500 contributes nothing to the January bucket, so the
bucket does not sum over all "requests whose creation date falls in that
month" — only over the non-deleted ones. -/
theorem C9_counterexample :
    ((costOverview [⟨1, none, "", RequestStatus.new, none, none, ⟨2024, 1, 15⟩,
        some 500, some 700, true⟩] 2024).months_data.head?).map (fun b => b.estimated) =
      some 0
    ∧ ((([⟨1, none, "", RequestStatus.new, none, none, ⟨2024, 1, 15⟩, some 500, some 700,
        true⟩] : List RequestRow).filter (fun r =>
          r.created_at.year == 2024 && r.created_at.month == 1)).map
          (fun r => orZero r.estimated_cost)).sum = 500 := by
  constructor
  · rfl
  · rfl

/-! ## C10: the default manager and the views built on it -/

/-- `DashboardView.get_queryset`: the triage inbox — open requests through
the default manager, optionally restricted to the acting user's assignments
(ordering annotations omitted; they do not change membership). -/
def dashboardQueryset (db : List RequestRow) (u : AppUser) (mine : Bool) : List RequestRow :=
  let qs := (activeObjects db).filter (fun r =>
    !(r.status == RequestStatus.completed || r.status == RequestStatus.closed))
  if mine then qs.filter (fun r => r.assigned_to == some u.id) else qs

/-- `PlannerView._get_month_context` request query: requests due inside the
month and not closed, through the default manager. -/
def plannerMonthRequests (db : List RequestRow) (firstDay lastDay : Int) : List RequestRow :=
  (activeObjects db).filter (fun r =>
    (match r.due_date with
     | some d => decide (firstDay ≤ d) && decide (d ≤ lastDay)
     | none => false) && !(r.status == RequestStatus.closed))

theorem mem_activeObjects (db : List RequestRow) (r : RequestRow) :
    r ∈ activeObjects db ↔ r ∈ db ∧ r.is_deleted = false := by
  simp [activeObjects, List.mem_filter]

theorem activeObjects_idem (db : List RequestRow) :
    activeObjects (activeObjects db) = activeObjects db := by
  simp [activeObjects, List.filter_filter]

theorem createdInMonth_active (db : List RequestRow) (y : Int) (m : Nat) :
    createdInMonth (activeObjects db) y m = createdInMonth db y m := by
  unfold createdInMonth
  rw [activeObjects_idem]

theorem monthBucket_active (db : List RequestRow) (y : Int) (m : Nat) :
    monthBucket (activeObjects db) y m = monthBucket db y m := by
  unfold monthBucket
  rw [createdInMonth_active]

theorem costOverview_active (db : List RequestRow) (y : Int) :
    costOverview (activeObjects db) y = costOverview db y := by
  unfold costOverview
  simp only [monthBucket_active]

/-- C10: every query through the default manager (`RepairRequest.objects`,
embedded as `activeObjects`) returns only rows with `is_deleted = false` —
hence the list/detail queryset, the dashboard queryset, the planner request
query and the cost overview, all of which are built on it, never surface a
soft-deleted request (the cost overview computes the same result whether or
not deleted rows are present); a soft-deleted row is reachable only through
`all_objects` (embedded as `allObjects`). -/
theorem C10_default_manager_hides_deleted (db : List RequestRow) (u : AppUser)
    (mine : Bool) (y firstDay lastDay : Int) (r : RequestRow) :
    (r ∈ activeObjects db ↔ r ∈ db ∧ r.is_deleted = false)
    ∧ (r ∈ allObjects db ↔ r ∈ db)
    ∧ (r.is_deleted = true → r ∉ activeObjects db)
    ∧ (r ∈ requestListQueryset db u → r.is_deleted = false)
    ∧ (r ∈ dashboardQueryset db u mine → r.is_deleted = false)
    ∧ (r ∈ plannerMonthRequests db firstDay lastDay → r.is_deleted = false)
    ∧ costOverview db y = costOverview (activeObjects db) y := by
  refine ⟨mem_activeObjects db r, Iff.rfl, ?_, ?_, ?_, ?_, (costOverview_active db y).symm⟩
  · intro hdel hmem
    have := ((mem_activeObjects db r).mp hmem).2
    rw [hdel] at this
    cases this
  · intro hmem
    unfold requestListQueryset at hmem
    by_cases hcond : (!(u.is_staff || u.is_superuser) && !(u.groups.contains "Facilitair")) = true
    · rw [if_pos hcond] at hmem
      exact ((mem_activeObjects db r).mp (List.mem_of_mem_filter hmem)).2
    · rw [if_neg (by simpa using hcond)] at hmem
      exact ((mem_activeObjects db r).mp hmem).2
  · intro hmem
    unfold dashboardQueryset at hmem
    by_cases hm : mine = true
    · rw [if_pos hm] at hmem
      exact ((mem_activeObjects db r).mp
        (List.mem_of_mem_filter (List.mem_of_mem_filter hmem))).2
    · rw [if_neg hm] at hmem
      exact ((mem_activeObjects db r).mp (List.mem_of_mem_filter hmem)).2
  · intro hmem
    exact ((mem_activeObjects db r).mp (List.mem_of_mem_filter hmem)).2

/-- Witness instantiating `C10_default_manager_hides_deleted` on a two-row
database with one soft-deleted row. -/
theorem C10_default_manager_hides_deleted_witness :
    (⟨2, none, "", RequestStatus.new, none, none, ⟨2024, 2, 2⟩, none, none, false⟩ : RequestRow)
      ∈ activeObjects
        [⟨2, none, "", RequestStatus.new, none, none, ⟨2024, 2, 2⟩, none, none, false⟩,
         ⟨3, none, "", RequestStatus.new, none, none, ⟨2024, 3, 3⟩, none, none, true⟩]
    ∧ (⟨3, none, "", RequestStatus.new, none, none, ⟨2024, 3, 3⟩, none, none, true⟩ : RequestRow)
      ∉ activeObjects
        [⟨2, none, "", RequestStatus.new, none, none, ⟨2024, 2, 2⟩, none, none, false⟩,
         ⟨3, none, "", RequestStatus.new, none, none, ⟨2024, 3, 3⟩, none, none, true⟩] :=
  ⟨(C10_default_manager_hides_deleted
      [⟨2, none, "", RequestStatus.new, none, none, ⟨2024, 2, 2⟩, none, none, false⟩,
       ⟨3, none, "", RequestStatus.new, none, none, ⟨2024, 3, 3⟩, none, none, true⟩]
      ⟨0, "", "", "", false, false, []⟩ false 2024 0 0
      ⟨2, none, "", RequestStatus.new, none, none, ⟨2024, 2, 2⟩, none, none, false⟩).1.mpr
      ⟨by decide, rfl⟩,
   (C10_default_manager_hides_deleted
      [⟨2, none, "", RequestStatus.new, none, none, ⟨2024, 2, 2⟩, none, none, false⟩,
       ⟨3, none, "", RequestStatus.new, none, none, ⟨2024, 3, 3⟩, none, none, true⟩]
      ⟨0, "", "", "", false, false, []⟩ false 2024 0 0
      ⟨3, none, "", RequestStatus.new, none, none, ⟨2024, 3, 3⟩, none, none, true⟩).2.2.1 rfl⟩

/-! ## requests/utils.py: @mention extraction and notifications -/

/-- `\w` of `MENTION_PATTERN` (ASCII word characters; usernames are ASCII). -/
def isWordChar (c : Char) : Bool :=
  c.isAlphanum || c = '_'

/-- `MENTION_PATTERN.findall(text)`: the word part of every non-overlapping
`@`-plus-word-characters match, left to right.  The scan consumes at least
one character per step, so the character count is a sufficient budget. -/
def mentionTokensAux : Nat → List Char → List String
  | 0, _ => []
  | _, [] => []
  | fuel + 1, c :: rest =>
    if c = '@' then
      let tok := rest.takeWhile isWordChar
      if tok.isEmpty then mentionTokensAux fuel rest
      else String.mk tok :: mentionTokensAux fuel (rest.dropWhile isWordChar)
    else mentionTokensAux fuel rest

def mentionTokens (text : String) : List String :=
  mentionTokensAux text.length text.data

/-- `extract_mentions`: resolve the tokens found in the text against existing
usernames (`User.objects.filter(username__in=usernames)`); tokens matching no
username are dropped silently. -/
def extract_mentions (text : String) (userDb : List AppUser) : List AppUser :=
  let usernames := mentionTokens text
  if usernames.isEmpty then []
  else userDb.filter (fun u => usernames.contains u.username)

/-- An in-app `Notification` row as created for a mention. -/
structure MentionAlert where
  user_id : Nat
  title : String
  message : String
deriving Repr, DecidableEq

/-- One attempted outbound email (`recipient` is the `send_mail` to-list's
single entry). -/
structure EmailAttempt where
  recipient : String
  subject : String
  body : String
deriving Repr, DecidableEq

/-- `worklog.author.get_full_name() or worklog.author.username` when the log
has an author, the fallback author label otherwise. -/
def worklogAuthorName (author : Option AppUser) : String :=
  match author with
  | some u => u.display
  | none => "Iemand"

/-- `worklog.note[:200] + '...' if len(worklog.note) > 200 else worklog.note`
— the preview placed in the in-app notification message. -/
def notePreview (note : String) : String :=
  if note.length > 200 then note.take 200 ++ "..." else note

/-- The in-app notification for one mentioned user: its message interpolates
the truncated preview of the note. -/
def mentionAlertFor (authorName : String) (reqId : Nat) (reqTitle note : String)
    (u : AppUser) : MentionAlert :=
  { user_id := u.id
    title := authorName ++ " heeft je genoemd"
    message := "In verzoek #" ++ toString reqId ++ ": " ++ reqTitle ++ "\n\n\"" ++
      notePreview note ++ "\"" }

/-- The email for one mentioned user: its body interpolates `worklog.note`
itself, in full. -/
def mentionEmailFor (authorName : String) (reqId : Nat) (reqTitle note url : String)
    (u : AppUser) : EmailAttempt :=
  { recipient := u.email
    subject := "Je bent genoemd in verzoek #" ++ toString reqId
    body := "Hallo " ++ u.display ++ ",\n\n" ++ authorName ++
      " heeft je genoemd in een notitie bij verzoek #" ++ toString reqId ++ ": " ++
      reqTitle ++ "\n\nNotitie:\n" ++ note ++ "\n\n" ++ url }

/-- What `send_mention_notifications` produces: in-app notifications (always,
one per mentioned user), email attempts (only with the global toggle on and a
non-empty address), and log lines for failed sends.  A failing backend
(`failingAddresses`) only adds log lines: the exception is caught inside the
loop and never surfaced. -/
structure MentionSendResult where
  alerts : List MentionAlert
  emails : List EmailAttempt
  logged_errors : List String
deriving Repr, DecidableEq

/-- `send_mention_notifications(worklog, mentioned_users, request_url)`. -/
def send_mention_notifications (wl : WorkLogEntry) (reqId : Nat) (reqTitle : String)
    (mentioned : List AppUser) (requestUrl : String) (emailToggle : Bool)
    (failingAddresses : List String) : MentionSendResult :=
  if mentioned.isEmpty then { alerts := [], emails := [], logged_errors := [] }
  else
    let authorName := worklogAuthorName wl.author
    { alerts := mentioned.map (fun u =>
        mentionAlertFor authorName reqId reqTitle wl.note u)
      emails := (mentioned.filter (fun u => emailToggle && !(u.email == ""))).map
        (fun u => mentionEmailFor authorName reqId reqTitle wl.note requestUrl u)
      logged_errors := (mentioned.filter (fun u =>
        emailToggle && !(u.email == "") && failingAddresses.contains u.email)).map
        (fun u => "Failed to send email to " ++ u.email) }

/-! ### Mention lemmas -/

/-- In a user list with pairwise-distinct ids, exactly one entry carries a
member's id. -/
theorem filter_id_eq_singleton (l : List AppUser) (u : AppUser) (hu : u ∈ l)
    (hnd : (l.map (fun v => v.id)).Nodup) :
    (l.filter (fun v => v.id == u.id)).length = 1 := by
  induction l with
  | nil => cases hu
  | cons a rest ih =>
    rw [List.map_cons, List.nodup_cons] at hnd
    rcases List.mem_cons.mp hu with rfl | hu2
    · have hrest : rest.filter (fun v => v.id == u.id) = [] := by
        apply List.filter_eq_nil_iff.mpr
        intro v hv
        simp only [beq_iff_eq]
        intro he
        exact hnd.1 (List.mem_map.mpr ⟨v, hv, he⟩)
      simp [List.filter_cons, hrest]
    · have hne : (a.id == u.id) = false := by
        simp only [beq_eq_false_iff_ne, ne_eq]
        intro he
        exact hnd.1 (List.mem_map.mpr ⟨u, hu2, he.symm⟩)
      simp only [List.filter_cons, hne, Bool.false_eq_true, if_false]
      exact ih hu2 hnd.2

/-- C7 (amended): for every new work-log note, every user whose username
matches an `@`-word token resolves (unmatched tokens are silently dropped),
and each resolved user receives exactly one in-app notification — whose
message carries the note preview truncated beyond 200 characters and
ellipsis-suffixed; with the global toggle on, one email is attempted per
resolved user with a non-empty address, and the email body carries the note
in full (the original claim placed the truncation in the email); a failing
mail backend changes only the logged errors, never the notifications or the
attempts, and is not surfaced.  -/
theorem C7_mention_notifications (text requestUrl reqTitle : String) (reqId : Nat)
    (userDb mentioned : List AppUser) (wl : WorkLogEntry) (emailToggle : Bool)
    (failingAddresses : List String)
    (hnd : (mentioned.map (fun v => v.id)).Nodup) :
    (∀ u, u ∈ extract_mentions text userDb ↔
        u ∈ userDb ∧ (mentionTokens text).contains u.username = true)
    ∧ (∀ u ∈ mentioned,
        ((send_mention_notifications wl reqId reqTitle mentioned requestUrl emailToggle
            failingAddresses).alerts.filter (fun n => n.user_id == u.id)).length = 1)
    ∧ (send_mention_notifications wl reqId reqTitle mentioned requestUrl emailToggle
          failingAddresses).alerts =
        mentioned.map (fun u => mentionAlertFor (worklogAuthorName wl.author)
          reqId reqTitle wl.note u)
    ∧ (send_mention_notifications wl reqId reqTitle mentioned requestUrl emailToggle
          failingAddresses).emails =
        (mentioned.filter (fun u => emailToggle && !(u.email == ""))).map
          (fun u => mentionEmailFor (worklogAuthorName wl.author) reqId reqTitle wl.note
            requestUrl u)
    ∧ (wl.note.length > 200 → notePreview wl.note = wl.note.take 200 ++ "...")
    ∧ (¬ wl.note.length > 200 → notePreview wl.note = wl.note)
    ∧ (send_mention_notifications wl reqId reqTitle mentioned requestUrl emailToggle
          failingAddresses).alerts =
        (send_mention_notifications wl reqId reqTitle mentioned requestUrl emailToggle
          []).alerts
    ∧ (send_mention_notifications wl reqId reqTitle mentioned requestUrl emailToggle
          failingAddresses).emails =
        (send_mention_notifications wl reqId reqTitle mentioned requestUrl emailToggle
          []).emails := by
  have halerts : (send_mention_notifications wl reqId reqTitle mentioned requestUrl
      emailToggle failingAddresses).alerts =
      mentioned.map (fun u => mentionAlertFor (worklogAuthorName wl.author)
        reqId reqTitle wl.note u) := by
    cases mentioned with
    | nil => rfl
    | cons a rest => rfl
  have hemails : (send_mention_notifications wl reqId reqTitle mentioned requestUrl
      emailToggle failingAddresses).emails =
      (mentioned.filter (fun u => emailToggle && !(u.email == ""))).map
        (fun u => mentionEmailFor (worklogAuthorName wl.author) reqId reqTitle wl.note
          requestUrl u) := by
    cases mentioned with
    | nil => rfl
    | cons a rest => rfl
  refine ⟨?_, ?_, halerts, hemails, ?_, ?_, ?_, ?_⟩
  · intro u
    unfold extract_mentions
    by_cases he : (mentionTokens text).isEmpty = true
    · have hnil : mentionTokens text = [] := by
        simpa [List.isEmpty_iff] using he
      simp [he, hnil]
    · simp only [he, Bool.false_eq_true, if_false, List.mem_filter]
  · intro u hu
    rw [halerts, List.filter_map]
    rw [List.length_map]
    have hcongr : mentioned.filter ((fun n => n.user_id == u.id) ∘
        (fun v => mentionAlertFor (worklogAuthorName wl.author) reqId reqTitle wl.note v)) =
        mentioned.filter (fun v => v.id == u.id) := by
      apply List.filter_congr
      intro v _
      rfl
    rw [hcongr]
    exact filter_id_eq_singleton mentioned u hu hnd
  · intro h
    unfold notePreview
    rw [if_pos h]
  · intro h
    unfold notePreview
    rw [if_neg h]
  · cases mentioned with
    | nil => rfl
    | cons a rest => rfl
  · cases mentioned with
    | nil => rfl
    | cons a rest => rfl

/-- A 201-character note, one character past the preview limit. -/
def longNote : String :=
  String.mk (List.replicate 201 'a')

/-- The email body as the original claim describes it — with the truncated,
ellipsis-suffixed preview in place of the note.  Defined only to compare the
claim's wording against the source behaviour. -/
def mentionEmailBodySpec (authorName : String) (reqId : Nat) (reqTitle note url : String)
    (u : AppUser) : String :=
  "Hallo " ++ u.display ++ ",\n\n" ++ authorName ++
    " heeft je genoemd in een notitie bij verzoek #" ++ toString reqId ++ ": " ++
    reqTitle ++ "\n\nNotitie:\n" ++ notePreview note ++ "\n\n" ++ url

set_option maxRecDepth 8000 in
/-- C7 counterexample: on a 201-character note the single attempted email's
body is built from the full note and differs from the body the claim
describes (truncated preview); the truncation lives in the in-app
notification instead. -/
theorem C7_counterexample :
    (send_mention_notifications ⟨some ⟨7, "piet", "", "", false, false, []⟩,
        EntryType.note, longNote⟩ 1 "Lamp"
        [⟨8, "jan", "", "jan@example.org", false, false, []⟩] "url" true []).emails =
      [mentionEmailFor "piet" 1 "Lamp" longNote "url"
        ⟨8, "jan", "", "jan@example.org", false, false, []⟩]
    ∧ (mentionEmailFor "piet" 1 "Lamp" longNote "url"
        ⟨8, "jan", "", "jan@example.org", false, false, []⟩).body ≠
      mentionEmailBodySpec "piet" 1 "Lamp" longNote "url"
        ⟨8, "jan", "", "jan@example.org", false, false, []⟩
    ∧ longNote.length > 200
    ∧ (send_mention_notifications ⟨some ⟨7, "piet", "", "", false, false, []⟩,
        EntryType.note, longNote⟩ 1 "Lamp"
        [⟨8, "jan", "", "jan@example.org", false, false, []⟩] "url" true []).alerts =
      [mentionAlertFor "piet" 1 "Lamp" longNote
        ⟨8, "jan", "", "jan@example.org", false, false, []⟩] := by
  refine ⟨rfl, ?_, by decide, rfl⟩
  decide

/-- Witness instantiating `C7_mention_notifications` on the note "hoi @piet". -/
theorem C7_mention_notifications_witness :
    (⟨7, "piet", "Piet P", "piet@example.org", false, false, []⟩ : AppUser) ∈
      extract_mentions "hoi @piet" [⟨7, "piet", "Piet P", "piet@example.org", false, false, []⟩]
    ∧ ((send_mention_notifications
        ⟨some ⟨7, "piet", "Piet P", "piet@example.org", false, false, []⟩, EntryType.note,
          "hoi @piet"⟩ 1 "Lamp"
        [⟨7, "piet", "Piet P", "piet@example.org", false, false, []⟩] "u" true
        []).alerts.filter (fun n => n.user_id == 7)).length = 1 := by
  have h := C7_mention_notifications "hoi @piet" "u" "Lamp" 1
    [⟨7, "piet", "Piet P", "piet@example.org", false, false, []⟩]
    [⟨7, "piet", "Piet P", "piet@example.org", false, false, []⟩]
    ⟨some ⟨7, "piet", "Piet P", "piet@example.org", false, false, []⟩, EntryType.note,
      "hoi @piet"⟩ true [] (by decide)
  exact ⟨(h.1 ⟨7, "piet", "Piet P", "piet@example.org", false, false, []⟩).mpr
      ⟨by decide, by decide⟩,
    h.2.1 ⟨7, "piet", "Piet P", "piet@example.org", false, false, []⟩ (by decide)⟩

/-! ## core/models.py: Asset.save tag generation -/

/-- The fixed category-to-tag mapping of `Asset.save` with its default "OBJ"
for unmapped categories (the dict `.get(category, 'OBJ')`). -/
def categoryCode (category : String) : String :=
  if category = "hvac" then "HVAC"
  else if category = "electrical" then "ELEK"
  else if category = "plumbing" then "SAN"
  else if category = "safety" then "VEIL"
  else if category = "av" then "AV"
  else if category = "furniture" then "MEUB"
  else if category = "building" then "GEB"
  else if category = "other" then "OBJ"
  else "OBJ"

/-- The lowercase hex digits `uuid.uuid4().hex` is made of. -/
def hexLower : List Char :=
  ['0', '1', '2', '3', '4'] ++ ['5', '6', '7', '8', '9'] ++ ['a', 'b', 'c'] ++ ['d', 'e', 'f']

/-- The uppercase hex digits the claim requires in the suffix. -/
def hexUpper : List Char :=
  ['0', '1', '2', '3', '4'] ++ ['5', '6', '7', '8', '9'] ++ ['A', 'B', 'C'] ++ ['D', 'E', 'F']

/-- `uuid.uuid4().hex[:6].upper()`: the first six characters of the digest,
uppercased. -/
def tagSuffix (hexChars : List Char) : List Char :=
  (hexChars.take 6).map Char.toUpper

/-- The generated tag `f"{prefix}-{uid}"` of `Asset.save`. -/
def generateAssetTag (category : String) (hexChars : List Char) : String :=
  String.mk ((categoryCode category).data ++ '-' :: tagSuffix hexChars)

/-- `Asset.save`: a tag is generated only when the current tag is empty
(falsy); an explicit tag is kept. -/
def assetSaveTag (currentTag category : String) (hexChars : List Char) : String :=
  if currentTag = "" then generateAssetTag category hexChars else currentTag

/-- The storage layer's UNIQUE constraint on `asset_tag` (`unique=True`): an
insert whose tag already exists is rejected, never silently overwritten. -/
def insertAssetTag (tags : List String) (tag : String) : Option (List String) :=
  if tags.contains tag then none else some (tags ++ [tag])

/-- C8: an asset saved without a tag receives `PREFIX-SSSSSS`: the prefix
comes from the fixed category mapping (default "OBJ"), and the suffix is six
uppercase hexadecimal characters; the storage uniqueness constraint keeps the
set of stored tags duplicate-free and rejects a colliding concurrent insert
instead of overwriting. -/
theorem C8_asset_tag (category : String) (hexChars : List Char)
    (hlen : 6 ≤ hexChars.length) (hhex : ∀ c ∈ hexChars, c ∈ hexLower)
    (tags : List String) (hnd : tags.Nodup) :
    (assetSaveTag "" category hexChars).data =
        (categoryCode category).data ++ '-' :: tagSuffix hexChars
    ∧ (tagSuffix hexChars).length = 6
    ∧ (∀ c ∈ tagSuffix hexChars, c ∈ hexUpper)
    ∧ (category ∉ (["hvac", "electrical", "plumbing", "safety", "av", "furniture",
        "building", "other"] : List String) → categoryCode category = "OBJ")
    ∧ (∀ tags2, insertAssetTag tags (generateAssetTag category hexChars) = some tags2 →
        tags2.Nodup)
    ∧ (∀ t, tags.contains t = true → insertAssetTag tags t = none)
    ∧ (∀ tags2 t, insertAssetTag tags t = some tags2 → insertAssetTag tags2 t = none) := by
  refine ⟨rfl, ?_, ?_, ?_, ?_, ?_, ?_⟩
  · unfold tagSuffix
    rw [List.length_map, List.length_take]
    omega
  · intro c hc
    unfold tagSuffix at hc
    rw [List.mem_map] at hc
    obtain ⟨c0, hc0, rfl⟩ := hc
    have hmem : c0 ∈ hexLower := hhex c0 (List.mem_of_mem_take hc0)
    have hupper : ∀ c ∈ hexLower, Char.toUpper c ∈ hexUpper := by decide
    exact hupper c0 hmem
  · intro hnotin
    unfold categoryCode
    have h1 : ¬ category = "hvac" := fun h => hnotin (by rw [h]; decide)
    have h2 : ¬ category = "electrical" := fun h => hnotin (by rw [h]; decide)
    have h3 : ¬ category = "plumbing" := fun h => hnotin (by rw [h]; decide)
    have h4 : ¬ category = "safety" := fun h => hnotin (by rw [h]; decide)
    have h5 : ¬ category = "av" := fun h => hnotin (by rw [h]; decide)
    have h6 : ¬ category = "furniture" := fun h => hnotin (by rw [h]; decide)
    have h7 : ¬ category = "building" := fun h => hnotin (by rw [h]; decide)
    have h8 : ¬ category = "other" := fun h => hnotin (by rw [h]; decide)
    simp [h1, h2, h3, h4, h5, h6, h7, h8]
  · intro tags2 hins
    unfold insertAssetTag at hins
    by_cases hc : tags.contains (generateAssetTag category hexChars) = true
    · rw [if_pos hc] at hins
      cases hins
    · rw [if_neg (by simpa using hc)] at hins
      cases hins
      rw [List.nodup_append]
      refine ⟨hnd, List.nodup_singleton _, ?_⟩
      intro t ht hts
      rw [List.mem_singleton] at hts
      subst hts
      have hmem : generateAssetTag category hexChars ∉ tags := by simpa using hc
      exact hmem ht
  · intro t hc
    unfold insertAssetTag
    rw [if_pos hc]
  · intro tags2 t hins
    unfold insertAssetTag at hins ⊢
    by_cases hc : tags.contains t = true
    · rw [if_pos hc] at hins
      cases hins
    · rw [if_neg (by simpa using hc)] at hins
      cases hins
      rw [if_pos (by simp)]

/-- Witness instantiating `C8_asset_tag` on an unmapped category and an
already-stored tag. -/
theorem C8_asset_tag_witness :
    (tagSuffix ['a', '1', 'b', '2', 'c', '3']).length = 6 ∧
    insertAssetTag ["OBJ-A1B2C3"] "OBJ-A1B2C3" = none := by
  have h := C8_asset_tag "widget" ['a', '1', 'b', '2', 'c', '3'] (by decide) (by decide)
    ["OBJ-A1B2C3"] (by decide)
  exact ⟨h.2.1, h.2.2.2.2.2.1 "OBJ-A1B2C3" (by decide)⟩
